import Mathlib

/-!
Verification of the autofix engine (`src/autofix/engine.ts`) and the rule
engine (`src/rules/engine.ts`) of the baseline-upgrade CLI, as a shallow
embedding: JS strings become Lean `String` (a list of characters), the
engine's `sourceLines` array becomes `List String`, JS numbers used as
line/column indices become `Int`, and a `TextEdit` application that throws
becomes `Except String`.  JS `Array.prototype.sort` is stable (ES2019), so
`sortSuggestionsForApplication` is modelled by a stable insertion sort with
the source's comparator.
-/

namespace BaselineUpgrade

/-- A (line, column) position: 1-based line, 0-based column, as in the source. -/
structure Position where
  line : Int
  column : Int
  deriving DecidableEq, Repr

/-- A range over the original document.  The source field `end` is a Lean
keyword, so it is called `stop` here. -/
structure Range where
  start : Position
  stop : Position
  deriving DecidableEq, Repr

/-- An LSP-style text edit: a range in the original document plus replacement text. -/
structure TextEdit where
  range : Range
  newText : String
  deriving DecidableEq, Repr

/-- Severity of a suggestion: `'error' | 'warn' | 'info'`. -/
inductive Severity where
  | error
  | warn
  | info
  deriving DecidableEq, Repr

/-- Category of a suggestion: `'javascript' | 'css' | 'html' | 'performance'`. -/
inductive Category where
  | javascript
  | css
  | html
  | performance
  deriving DecidableEq, Repr

/-- Baseline support tier: `'high' | 'low' | 'limited' | 'not supported'`. -/
inductive BaselineStatus where
  | high
  | low
  | limited
  | notSupported
  deriving DecidableEq, Repr

/-- An autofix suggestion: identity, the edit, and the fields used to decide
whether it is safe to apply. -/
structure AutofixSuggestion where
  file : String
  ruleId : String
  edit : TextEdit
  description : String
  category : Category
  baselineStatus : BaselineStatus
  severity : Severity
  deriving DecidableEq, Repr

/-- One per-edit failure entry `{ruleId, message, position?}`. -/
structure AutofixError where
  ruleId : String
  message : String
  position : Option Position := none
  deriving DecidableEq, Repr

/-- Options of `applyFixes`; the defaults mirror the destructuring defaults
`{ dryRun = false, safeOnly = true, maxEdits = 100 }` in the source. -/
structure AutofixOptions where
  dryRun : Bool := false
  safeOnly : Bool := true
  maxEdits : Int := 100
  deriving DecidableEq, Repr

/-- Result of one `applyFixes` run.  `modifiedContent` is optional in the
source (`modifiedContent?: string`): the early return for an empty valid
suggestion list leaves it `undefined`, modelled as `none`. -/
structure AutofixResult where
  success : Bool
  appliedEdits : Nat
  errors : List AutofixError
  modifiedContent : Option String := none
  deriving DecidableEq, Repr

/-- Splitting accumulator: JS `sourceCode.split('\n')`. -/
def splitLinesAux : List Char → List Char → List String
  | [], cur => [String.mk cur.reverse]
  | c :: cs, cur =>
    if c = '\n' then String.mk cur.reverse :: splitLinesAux cs []
    else splitLinesAux cs (c :: cur)

/-- JS `sourceCode.split('\n')`: the engine constructor's line buffer. -/
def splitLines (s : String) : List String :=
  splitLinesAux s.data []

/-- JS `lines.join('\n')`. -/
def joinLines : List String → String
  | [] => ""
  | [l] => l
  | l :: ls => l ++ "\n" ++ joinLines ls

/-- JS `String.prototype.slice(start, stop)`: negative indices count from the
end, both indices are clamped to `[0, length]`, and an empty string results
when `start ≥ stop` after clamping. -/
def jsSlice (s : String) (start stop : Int) : String :=
  let n : Int := s.data.length
  let st : Int := if start < 0 then max (n + start) 0 else min start n
  let en : Int := if stop < 0 then max (n + stop) 0 else min stop n
  String.mk ((s.data.take en.toNat).drop st.toNat)

/-- JS one-argument `String.prototype.slice(start)`. -/
def jsSliceFrom (s : String) (start : Int) : String :=
  jsSlice s start (s.data.length : Int)

/-- JS array indexing `lines[i]`: `undefined` (here `none`) when out of bounds
or negative. -/
def jsIndex (lines : List String) (i : Int) : Option String :=
  if i < 0 then none else lines.get? i.toNat

/-- JS array element assignment `lines[i] = v` for an in-bounds index. -/
def jsSetIndex (lines : List String) (i : Nat) (v : String) : List String :=
  lines.set i v

/-- Linearize a position to a character offset against a line buffer, as
`positionToOffset`: the lengths of the first `line - 1` lines plus one
newline each, plus the column.  Positions beyond the buffer are filtered out
before this is reached in `applyFixes`. -/
def positionToOffset (sourceLines : List String) (pos : Position) : Int :=
  ((((sourceLines.take (pos.line - 1).toNat).map (fun l => l.data.length + 1)).sum : Nat) : Int)
    + pos.column

/-- Half-open overlap of two ranges on the linearized offset, as `rangesOverlap`. -/
def rangesOverlap (sourceLines : List String) (a b : Range) : Bool :=
  let aStart := positionToOffset sourceLines a.start
  let aEnd := positionToOffset sourceLines a.stop
  let bStart := positionToOffset sourceLines b.start
  let bEnd := positionToOffset sourceLines b.stop
  aStart < bEnd && bStart < aEnd

/-- Structural validity of a range, as `isValidRange`: lines at least 1,
columns at least 0, and the end not before the start. -/
def isValidRange (range : Range) : Bool :=
  range.start.line ≥ 1 &&
  range.stop.line ≥ 1 &&
  range.start.column ≥ 0 &&
  range.stop.column ≥ 0 &&
  (range.stop.line > range.start.line ||
    (range.stop.line = range.start.line && range.stop.column ≥ range.start.column))

/-- Both lines of the range address lines of the buffer, as `isRangeInBounds`. -/
def isRangeInBounds (sourceLines : List String) (range : Range) : Bool :=
  range.start.line ≤ sourceLines.length && range.stop.line ≤ sourceLines.length

/-- The filter predicate of `validateAndFilterSuggestions`: drop non-info
suggestions when `safeOnly` is set, then drop malformed and out-of-bounds
ranges. -/
def suggestionAccepted (sourceLines : List String) (safeOnly : Bool)
    (suggestion : AutofixSuggestion) : Bool :=
  if safeOnly && !(suggestion.severity = Severity.info) then false
  else if !(isValidRange suggestion.edit.range) then false
  else if !(isRangeInBounds sourceLines suggestion.edit.range) then false
  else true

/-- `validateAndFilterSuggestions(safeOnly)` over the engine's suggestion list. -/
def validateAndFilterSuggestions (sourceLines : List String) (safeOnly : Bool)
    (suggestions : List AutofixSuggestion) : List AutofixSuggestion :=
  suggestions.filter (suggestionAccepted sourceLines safeOnly)

/-- The comparator of `sortSuggestionsForApplication`: descending by end line,
then descending by end column within one line. -/
def compareForApplication (a b : AutofixSuggestion) : Int :=
  if a.edit.range.stop.line ≠ b.edit.range.stop.line then
    b.edit.range.stop.line - a.edit.range.stop.line
  else
    b.edit.range.stop.column - a.edit.range.stop.column

/-- Stable insertion of one element: `x` goes after every element the
comparator places strictly before it, hence before elements it ties with,
matching the stability of JS `Array.prototype.sort`. -/
def insertSorted (x : AutofixSuggestion) : List AutofixSuggestion → List AutofixSuggestion
  | [] => [x]
  | y :: ys =>
    if compareForApplication y x < 0 then y :: insertSorted x ys
    else x :: y :: ys

/-- `sortSuggestionsForApplication`: stable sort by the comparator, i.e.
bottom-to-top by end line and right-to-left within a line. -/
def sortSuggestionsForApplication : List AutofixSuggestion → List AutofixSuggestion
  | [] => []
  | x :: xs => insertSorted x (sortSuggestionsForApplication xs)

/-- Accumulator loop of `filterOverlappingEdits`: accept a candidate only when
it overlaps none of the already accepted edits. -/
def filterOverlappingAux (sourceLines : List String)
    (accepted : List AutofixSuggestion) :
    List AutofixSuggestion → List AutofixSuggestion
  | [] => accepted
  | s :: rest =>
    if accepted.any (fun t => rangesOverlap sourceLines s.edit.range t.edit.range) then
      filterOverlappingAux sourceLines accepted rest
    else
      filterOverlappingAux sourceLines (accepted ++ [s]) rest

/-- `filterOverlappingEdits`: walk the sorted list, keeping each suggestion
that overlaps no previously kept one. -/
def filterOverlappingEdits (sourceLines : List String)
    (suggestions : List AutofixSuggestion) : List AutofixSuggestion :=
  filterOverlappingAux sourceLines [] suggestions

/-- Truncation to `maxEdits` accepted edits; `0` or negative means unlimited,
as `maxEdits > 0 ? slice(0, maxEdits) : all`. -/
def capEdits (maxEdits : Int) (suggestions : List AutofixSuggestion) :
    List AutofixSuggestion :=
  if maxEdits > 0 then suggestions.take maxEdits.toNat else suggestions

/-- `applyTextEdit`: mutate the line buffer by one edit.  Fetching an
out-of-bounds line yields JS `undefined`, and the subsequent `.slice` throws;
that throw is the `Except.error` case. -/
def applyTextEdit (sourceLines : List String) (edit : TextEdit) :
    Except String (List String) :=
  let startLine : Int := edit.range.start.line - 1
  let endLine : Int := edit.range.stop.line - 1
  let startCol : Int := edit.range.start.column
  let endCol : Int := edit.range.stop.column
  if startLine = endLine then
    match jsIndex sourceLines startLine with
    | none => Except.error "Cannot read properties of undefined"
    | some line =>
      let before := jsSlice line 0 startCol
      let after := jsSliceFrom line endCol
      Except.ok (jsSetIndex sourceLines startLine.toNat (before ++ edit.newText ++ after))
  else
    match jsIndex sourceLines startLine, jsIndex sourceLines endLine with
    | some firstLine, some lastLine =>
      let before := jsSlice firstLine 0 startCol
      let after := jsSliceFrom lastLine endCol
      let combined := before ++ edit.newText ++ after
      Except.ok (sourceLines.take startLine.toNat ++ [combined] ++
        sourceLines.drop (startLine.toNat + (endLine - startLine + 1).toNat))
    | _, _ => Except.error "Cannot read properties of undefined"

/-- The application loop of `applyFixes`: apply each accepted edit in order;
a throwing edit appends `{ruleId, message, position: start}` to the error
ledger and the loop continues with the remaining edits.  Returns the final
line buffer, the number of edits applied without throwing, and the ledger. -/
def applyLoop (sourceLines : List String) (appliedEdits : Nat)
    (errors : List AutofixError) :
    List AutofixSuggestion → List String × Nat × List AutofixError
  | [] => (sourceLines, appliedEdits, errors)
  | s :: rest =>
    match applyTextEdit sourceLines s.edit with
    | Except.ok newLines => applyLoop newLines (appliedEdits + 1) errors rest
    | Except.error msg =>
      applyLoop sourceLines appliedEdits
        (errors ++ [{ ruleId := s.ruleId, message := msg,
                      position := some s.edit.range.start }]) rest

/-- The list of accepted edits after the filter → sort → overlap-dedup → cap
pipeline; `applyFixes` applies (or previews) exactly these. -/
def acceptedEdits (sourceLines : List String) (safeOnly : Bool) (maxEdits : Int)
    (suggestions : List AutofixSuggestion) : List AutofixSuggestion :=
  capEdits maxEdits
    (filterOverlappingEdits sourceLines
      (sortSuggestionsForApplication
        (validateAndFilterSuggestions sourceLines safeOnly suggestions)))

/-- The sub-list of accepted edits that apply without throwing, threading the
evolving line buffer exactly as the application loop does. -/
def appliedList (sourceLines : List String) :
    List AutofixSuggestion → List AutofixSuggestion
  | [] => []
  | s :: rest =>
    match applyTextEdit sourceLines s.edit with
    | Except.ok newLines => s :: appliedList newLines rest
    | Except.error _ => appliedList sourceLines rest

/-- `applyFixes` with `dryRun = false` (the branch `previewEdits` re-enters
with default `safeOnly`/`maxEdits`): returns the result and the engine's line
buffer after the call. -/
def applyFixesNoDry (sourceLines : List String)
    (suggestions : List AutofixSuggestion) (safeOnly : Bool) (maxEdits : Int) :
    AutofixResult × List String :=
  let validSuggestions := validateAndFilterSuggestions sourceLines safeOnly suggestions
  if validSuggestions.length = 0 then
    ({ success := true, appliedEdits := 0, errors := [], modifiedContent := none },
      sourceLines)
  else
    let finalSuggestions := capEdits maxEdits
      (filterOverlappingEdits sourceLines
        (sortSuggestionsForApplication validSuggestions))
    let res := applyLoop sourceLines 0 [] finalSuggestions
    ({ success := res.2.2.length = 0, appliedEdits := res.2.1, errors := res.2.2,
       modifiedContent := some (joinLines res.1) }, res.1)

/-- `previewEdits`: build a fresh engine from the joined current buffer and the
accepted suggestions, run `applyFixes({dryRun: false})` on it — note this
inner call uses the DEFAULT options `safeOnly = true`, `maxEdits = 100` — and
fall back to the unmodified text when `modifiedContent` is absent or empty
(JS `result.modifiedContent || previewLines.join('\n')`, where the empty
string is falsy). -/
def previewEdits (sourceLines : List String)
    (suggestions : List AutofixSuggestion) : String :=
  let previewSource := joinLines sourceLines
  let result := (applyFixesNoDry (splitLines previewSource) suggestions true 100).1
  match result.modifiedContent with
  | some s => if s = "" then previewSource else s
  | none => previewSource

/-- `applyFixes(options)` on an engine whose line buffer is `sourceLines`:
returns the `AutofixResult` together with the line buffer after the call
(the buffer is mutated only by the non-dry application loop). -/
def applyFixesFull (sourceLines : List String)
    (suggestions : List AutofixSuggestion) (options : AutofixOptions) :
    AutofixResult × List String :=
  let validSuggestions :=
    validateAndFilterSuggestions sourceLines options.safeOnly suggestions
  if validSuggestions.length = 0 then
    ({ success := true, appliedEdits := 0, errors := [], modifiedContent := none },
      sourceLines)
  else
    let finalSuggestions := capEdits options.maxEdits
      (filterOverlappingEdits sourceLines
        (sortSuggestionsForApplication validSuggestions))
    if options.dryRun then
      ({ success := true, appliedEdits := finalSuggestions.length, errors := [],
         modifiedContent := some (previewEdits sourceLines finalSuggestions) },
        sourceLines)
    else
      let res := applyLoop sourceLines 0 [] finalSuggestions
      ({ success := res.2.2.length = 0, appliedEdits := res.2.1, errors := res.2.2,
         modifiedContent := some (joinLines res.1) }, res.1)

/-- `new AutofixEngine(sourceCode, suggestions).applyFixes(options)`:
the constructor splits the source on newlines. -/
def applyFixes (sourceCode : String) (suggestions : List AutofixSuggestion)
    (options : AutofixOptions) : AutofixResult :=
  (applyFixesFull (splitLines sourceCode) suggestions options).1

/-- The final line buffer produced by the application loop. -/
def finalLines (sourceLines : List String) :
    List AutofixSuggestion → List String
  | [] => sourceLines
  | s :: rest =>
    match applyTextEdit sourceLines s.edit with
    | Except.ok newLines => finalLines newLines rest
    | Except.error _ => finalLines sourceLines rest

/-- The error ledger produced by the application loop. -/
def loopErrors (sourceLines : List String) :
    List AutofixSuggestion → List AutofixError
  | [] => []
  | s :: rest =>
    match applyTextEdit sourceLines s.edit with
    | Except.ok newLines => loopErrors newLines rest
    | Except.error msg =>
      { ruleId := s.ruleId, message := msg,
        position := some s.edit.range.start } :: loopErrors sourceLines rest

/-! ## The rule engine (`src/rules/engine.ts`) -/

/-- A detected modernization opportunity, as `ModernizationSuggestion`. -/
structure ModernizationSuggestion where
  file : String
  line : Int
  column : Int
  oldCode : String
  newCode : String
  description : String
  category : Category
  baselineStatus : BaselineStatus
  ruleId : String
  severity : Severity
  deriving DecidableEq, Repr

/-- The read-only part of a `RuleContext` (filename and source text); the
`report` callback is modelled by having visitors return the suggestions they
report. -/
structure RuleContextInfo where
  filename : String
  sourceCode : String
  deriving DecidableEq, Repr

/-- A `RuleDefinition`, generic over the syntax-tree node type supplied by
the external parser.  A visitor callback may push suggestions through
`context.report` and afterwards throw: it is modelled as returning the
reported suggestions together with a flag saying whether it then threw.
`visitCSSRule` is declared in the source interface but never invoked by the
analyzed engine. -/
structure RuleDefinition (Node : Type) where
  name : String
  description : String
  category : Category
  severity : Severity
  baselineStatus : BaselineStatus
  visitNode : Option (Node → RuleContextInfo → List ModernizationSuggestion × Bool) := none
  visitCSSRule : Option (Node → RuleContextInfo → List ModernizationSuggestion × Bool) := none
  visitPattern : Option (RuleContextInfo → List ModernizationSuggestion × Bool) := none

/-- One entry of `RuleConfig`: `'off' | 'warn' | 'error' | 'info' | [string, any]`. -/
inductive RuleConfigValue where
  | off
  | warn
  | error
  | info
  | tuple (s : String)
  deriving DecidableEq, Repr

/-- A rule configuration: ruleId to configured state; absence means enabled. -/
def RuleConfig : Type := List (String × RuleConfigValue)

/-- `isRuleEnabled`: absent means enabled; only an explicit `'off'` disables. -/
def isRuleEnabled (config : RuleConfig) (ruleId : String) : Bool :=
  match config.lookup ruleId with
  | none => true
  | some RuleConfigValue.off => false
  | some _ => true

/-- The syntax tree handed back by the external parser: each node carries a
payload and its children, and `traverse` visits parent before children. -/
inductive Tree (Node : Type) where
  | mk : Node → List (Tree Node) → Tree Node

mutual

/-- Pre-order traversal order of `@babel/traverse`'s `enter` callback. -/
def preorder {Node : Type} : Tree Node → List Node
  | Tree.mk n children => n :: preorderList children

/-- Pre-order traversal of a forest, left to right. -/
def preorderList {Node : Type} : List (Tree Node) → List Node
  | [] => []
  | t :: ts => preorder t ++ preorderList ts

end

/-- The `activeRules` collection of `analyzeJavaScript`: enabled rules that
declare a `visitNode` callback, in registration order. -/
def activeNodeRules {Node : Type} (config : RuleConfig)
    (rules : List (String × RuleDefinition Node)) :
    List (String × RuleDefinition Node) :=
  rules.filter (fun p => isRuleEnabled config p.1 && p.2.visitNode.isSome)

/-- The suggestions pushed while visiting one node: every active rule's
visitor runs inside its own try/catch, so each contributes exactly what it
reported before (possibly) throwing. -/
def visitNodeOutput {Node : Type} (context : RuleContextInfo)
    (activeRules : List (String × RuleDefinition Node)) (n : Node) :
    List ModernizationSuggestion :=
  (activeRules.map (fun p =>
    match p.2.visitNode with
    | some v => (v n context).1
    | none => [])).flatten

/-- `analyzeJavaScript`: parse (an external capability, `none` when parsing
throws), then one pre-order traversal running every active node-visitor rule
on every node; a parse failure is caught and contributes no suggestions. -/
def analyzeJavaScript {Node : Type} (parse : String → Option (Tree Node))
    (config : RuleConfig) (rules : List (String × RuleDefinition Node))
    (context : RuleContextInfo) : List ModernizationSuggestion :=
  match parse context.sourceCode with
  | none => []
  | some ast =>
    ((preorder ast).map (visitNodeOutput context (activeNodeRules config rules))).flatten

/-- `analyzePatterns`: every enabled rule with a `visitPattern` callback runs
once per file, each inside its own try/catch. -/
def analyzePatterns {Node : Type} (config : RuleConfig)
    (rules : List (String × RuleDefinition Node))
    (context : RuleContextInfo) : List ModernizationSuggestion :=
  (rules.map (fun p =>
    if isRuleEnabled config p.1 then
      match p.2.visitPattern with
      | some v => (v context).1
      | none => []
    else [])).flatten

/-- Generalization of `splitLinesAux` used by `getFileExtension`. -/
def splitOnCharAux (sep : Char) : List Char → List Char → List String
  | [], cur => [String.mk cur.reverse]
  | c :: cs, cur =>
    if c = sep then String.mk cur.reverse :: splitOnCharAux sep cs []
    else splitOnCharAux sep cs (c :: cur)

/-- Split a string on a separator character. -/
def splitOnChar (sep : Char) (s : String) : List String :=
  splitOnCharAux sep s.data []

/-- Last element of a list of strings, or `""`. -/
def lastPart : List String → String
  | [] => ""
  | [x] => x
  | _ :: x :: xs => lastPart (x :: xs)

/-- `getFileExtension`: the regex `\.([^.]+)$` — a dot followed by a
nonempty dot-free suffix — yields `"." + suffix`, otherwise `""`. -/
def getFileExtension (filename : String) : String :=
  let parts := splitOnChar '.' filename
  if parts.length ≥ 2 && !(lastPart parts = "") then "." ++ lastPart parts
  else ""

/-- `analyzeFile`: run the JavaScript analysis for `.js`/`.ts`/`.jsx`/`.tsx`
files, then the text-scanner rules for every file, and keep only suggestions
whose `ruleId` is enabled. -/
def analyzeFile {Node : Type} (parse : String → Option (Tree Node))
    (config : RuleConfig) (rules : List (String × RuleDefinition Node))
    (filename content : String) : List ModernizationSuggestion :=
  let context : RuleContextInfo := { filename := filename, sourceCode := content }
  let ext := getFileExtension filename
  let jsSuggestions :=
    if [".js", ".ts", ".jsx", ".tsx"].contains ext then
      analyzeJavaScript parse config rules context
    else []
  (jsSuggestions ++ analyzePatterns config rules context).filter
    (fun s => isRuleEnabled config s.ruleId)

/-- A rule whose node visitor is `body` for the reporting part and `flag` for
whether it then throws; used to state that throwing is invisible to others. -/
def withVisitNode {Node : Type} (base : RuleDefinition Node)
    (body : Node → RuleContextInfo → List ModernizationSuggestion)
    (flag : Node → RuleContextInfo → Bool) : RuleDefinition Node :=
  { base with visitNode := some (fun n c => (body n c, flag n c)) }

/-- A rule that reports nothing and always throws on `visitNode`, the
isolation scenario of the spec. -/
def alwaysThrowingRule {Node : Type} (base : RuleDefinition Node) :
    RuleDefinition Node :=
  { base with visitNode := some (fun _ _ => ([], true)),
              visitPattern := none, visitCSSRule := none }

/-! ## Concrete inputs used by counterexamples and witnesses -/

/-- An info-severity suggestion with a single-line edit, for concrete runs. -/
def mkInfoSug (rid : String) (sc ec : Int) (t : String) : AutofixSuggestion :=
  { file := "f.js", ruleId := rid,
    edit := { range := { start := { line := 1, column := sc },
                         stop := { line := 1, column := ec } }, newText := t },
    description := "", category := Category.javascript,
    baselineStatus := BaselineStatus.high, severity := Severity.info }

/-- Suggestion covering columns 0–10 of line 1, end column 10. -/
def sugTieA : AutofixSuggestion := mkInfoSug "ruleA" 0 10 "X"

/-- Suggestion covering columns 5–10 of line 1: same end position as
`sugTieA`, overlapping it. -/
def sugTieB : AutofixSuggestion := mkInfoSug "ruleB" 5 10 "Y"

/-- Suggestion covering columns 2–9 of line 1: the larger end position. -/
def sugBig : AutofixSuggestion := mkInfoSug "big" 2 9 "X"

/-- Suggestion covering columns 0–5 of line 1: overlaps `sugBig` with a
strictly smaller end position. -/
def sugSmall : AutofixSuggestion := mkInfoSug "small" 0 5 "Y"

/-- A warn-severity suggestion replacing all of `"abc"` with `"x"`. -/
def warnSug : AutofixSuggestion :=
  { mkInfoSug "warnRule" 0 3 "x" with severity := Severity.warn }

/-- Ten pairwise non-overlapping one-character info edits on line 1. -/
def tenSugs : List AutofixSuggestion :=
  [mkInfoSug "r0" 0 1 "b", mkInfoSug "r1" 2 3 "b", mkInfoSug "r2" 4 5 "b",
   mkInfoSug "r3" 6 7 "b", mkInfoSug "r4" 8 9 "b", mkInfoSug "r5" 10 11 "b",
   mkInfoSug "r6" 12 13 "b", mkInfoSug "r7" 14 15 "b", mkInfoSug "r8" 16 17 "b",
   mkInfoSug "r9" 18 19 "b"]

/-- Metadata-only rule definition, base for concrete rules. -/
def baseRule (Node : Type) : RuleDefinition Node :=
  { name := "base", description := "", category := Category.javascript,
    severity := Severity.info, baselineStatus := BaselineStatus.high }

/-- A concrete text-scanner suggestion. -/
def patternSug : ModernizationSuggestion :=
  { file := "f.js", line := 1, column := 0, oldCode := "XMLHttpRequest",
    newCode := "fetch", description := "", category := Category.javascript,
    baselineStatus := BaselineStatus.high, ruleId := "xhr-to-fetch",
    severity := Severity.warn }

/-- A rule with only a text-scanner callback, reporting `patternSug`. -/
def patternOnlyRule : RuleDefinition Unit :=
  { baseRule Unit with visitPattern := some (fun _ => ([patternSug], false)) }

/-! ## Helper lemmas -/

/-- Overlap of linearized ranges is symmetric. -/
theorem rangesOverlap_comm (sourceLines : List String) (a b : Range) :
    rangesOverlap sourceLines a b = rangesOverlap sourceLines b a := by
  simp only [rangesOverlap]
  rw [Bool.and_comm]

/-- The sort comparator is antisymmetric. -/
theorem compareForApplication_neg (a b : AutofixSuggestion) :
    compareForApplication a b = -compareForApplication b a := by
  unfold compareForApplication
  by_cases h : a.edit.range.stop.line = b.edit.range.stop.line
  · rw [if_neg (by simp [h]), if_neg (by simp [h])]
    omega
  · rw [if_pos h, if_pos (Ne.symm h)]
    omega

/-- The comparator orders by end position, descending lexicographically. -/
theorem compareForApplication_le_iff (a b : AutofixSuggestion) :
    compareForApplication a b ≤ 0 ↔
      (b.edit.range.stop.line < a.edit.range.stop.line ∨
        (b.edit.range.stop.line = a.edit.range.stop.line ∧
          b.edit.range.stop.column ≤ a.edit.range.stop.column)) := by
  unfold compareForApplication
  by_cases h : a.edit.range.stop.line = b.edit.range.stop.line
  · rw [if_neg (by simp [h])]
    omega
  · rw [if_pos h]
    constructor
    · intro hle
      exact Or.inl (by omega)
    · intro hor
      omega

/-- Strict version of the comparator characterization. -/
theorem compareForApplication_lt_iff (a b : AutofixSuggestion) :
    compareForApplication a b < 0 ↔
      (b.edit.range.stop.line < a.edit.range.stop.line ∨
        (b.edit.range.stop.line = a.edit.range.stop.line ∧
          b.edit.range.stop.column < a.edit.range.stop.column)) := by
  unfold compareForApplication
  by_cases h : a.edit.range.stop.line = b.edit.range.stop.line
  · rw [if_neg (by simp [h])]
    omega
  · rw [if_pos h]
    constructor
    · intro hle
      exact Or.inl (by omega)
    · intro hor
      omega

/-- The comparator's non-strict order is transitive. -/
theorem compareForApplication_trans {a b c : AutofixSuggestion}
    (hab : compareForApplication a b ≤ 0) (hbc : compareForApplication b c ≤ 0) :
    compareForApplication a c ≤ 0 := by
  rw [compareForApplication_le_iff] at *
  omega

/-- Membership through stable insertion. -/
theorem mem_insertSorted {x a : AutofixSuggestion} {l : List AutofixSuggestion} :
    a ∈ insertSorted x l ↔ a = x ∨ a ∈ l := by
  induction l with
  | nil => simp [insertSorted]
  | cons y ys ih =>
    simp only [insertSorted]
    split
    · simp only [List.mem_cons, ih]
      tauto
    · simp only [List.mem_cons]

/-- Membership is preserved by the sort. -/
theorem mem_sortSuggestionsForApplication {a : AutofixSuggestion}
    {l : List AutofixSuggestion} :
    a ∈ sortSuggestionsForApplication l ↔ a ∈ l := by
  induction l with
  | nil => simp [sortSuggestionsForApplication]
  | cons x xs ih =>
    simp only [sortSuggestionsForApplication, mem_insertSorted, ih, List.mem_cons]

/-- Insertion preserves sortedness (pairwise non-positive comparator). -/
theorem pairwise_insertSorted {x : AutofixSuggestion} {l : List AutofixSuggestion}
    (h : l.Pairwise (fun a b => compareForApplication a b ≤ 0)) :
    (insertSorted x l).Pairwise (fun a b => compareForApplication a b ≤ 0) := by
  induction l with
  | nil => simp [insertSorted]
  | cons y ys ih =>
    rw [List.pairwise_cons] at h
    simp only [insertSorted]
    split
    · rename_i hyx
      rw [List.pairwise_cons]
      refine ⟨fun z hz => ?_, ih h.2⟩
      rcases mem_insertSorted.mp hz with rfl | hz
      · omega
      · exact h.1 z hz
    · rename_i hyx
      rw [List.pairwise_cons]
      refine ⟨fun z hz => ?_, List.pairwise_cons.mpr h⟩
      rcases List.mem_cons.mp hz with rfl | hz
      · have := compareForApplication_neg x z
        omega
      · have hxy : compareForApplication x y ≤ 0 := by
          have := compareForApplication_neg x y
          omega
        exact compareForApplication_trans hxy (h.1 z hz)

/-- The sort output is sorted. -/
theorem pairwise_sortSuggestionsForApplication (l : List AutofixSuggestion) :
    (sortSuggestionsForApplication l).Pairwise
      (fun a b => compareForApplication a b ≤ 0) := by
  induction l with
  | nil => simp [sortSuggestionsForApplication]
  | cons x xs ih => exact pairwise_insertSorted ih

/-- A list already sorted by the comparator is a fixed point of the sort. -/
theorem sortSuggestionsForApplication_eq_self {l : List AutofixSuggestion}
    (h : l.Pairwise (fun a b => compareForApplication a b ≤ 0)) :
    sortSuggestionsForApplication l = l := by
  induction l with
  | nil => rfl
  | cons x xs ih =>
    rw [List.pairwise_cons] at h
    simp only [sortSuggestionsForApplication, ih h.2]
    cases xs with
    | nil => rfl
    | cons y ys =>
      have hxy : compareForApplication x y ≤ 0 := h.1 y (List.mem_cons_self y ys)
      have : ¬ compareForApplication y x < 0 := by
        have := compareForApplication_neg x y
        omega
      simp [insertSorted, this]

/-- The overlap filter extends its accumulator with a sub-list of the input. -/
theorem filterOverlappingAux_eq_append (sourceLines : List String)
    (l : List AutofixSuggestion) :
    ∀ acc, ∃ r, filterOverlappingAux sourceLines acc l = acc ++ r ∧ r.Sublist l := by
  induction l with
  | nil => exact fun acc => ⟨[], by simp [filterOverlappingAux]⟩
  | cons s rest ih =>
    intro acc
    simp only [filterOverlappingAux]
    split
    · obtain ⟨r, hr, hsub⟩ := ih acc
      exact ⟨r, hr, hsub.cons s⟩
    · obtain ⟨r, hr, hsub⟩ := ih (acc ++ [s])
      exact ⟨s :: r, by simpa using hr, hsub.cons₂ s⟩

/-- Every output of the overlap filter comes from its input. -/
theorem mem_filterOverlappingEdits {sourceLines : List String}
    {l : List AutofixSuggestion} {x : AutofixSuggestion}
    (h : x ∈ filterOverlappingEdits sourceLines l) : x ∈ l := by
  obtain ⟨r, hr, hsub⟩ := filterOverlappingAux_eq_append sourceLines l []
  rw [filterOverlappingEdits, hr] at h
  exact hsub.mem (by simpa using h)

/-- The overlap filter's output is pairwise non-overlapping, given a pairwise
non-overlapping accumulator whose elements were checked. -/
theorem filterOverlappingAux_pairwise (sourceLines : List String)
    (l : List AutofixSuggestion) :
    ∀ acc, acc.Pairwise
        (fun a b => rangesOverlap sourceLines a.edit.range b.edit.range = false) →
      (filterOverlappingAux sourceLines acc l).Pairwise
        (fun a b => rangesOverlap sourceLines a.edit.range b.edit.range = false) := by
  induction l with
  | nil => exact fun acc h => h
  | cons s rest ih =>
    intro acc hacc
    simp only [filterOverlappingAux]
    split
    · exact ih acc hacc
    · rename_i hany
      refine ih (acc ++ [s]) ?_
      rw [List.pairwise_append]
      refine ⟨hacc, List.pairwise_singleton _ _, fun a ha b hb => ?_⟩
      rw [List.mem_singleton] at hb
      subst hb
      have := List.any_eq_false.mp (Bool.of_not_eq_true hany) a ha
      rw [rangesOverlap_comm]
      simpa using this

/-- `filterOverlappingEdits` returns pairwise non-overlapping edits — for
every pair, not just adjacent ones. -/
theorem filterOverlappingEdits_pairwise (sourceLines : List String)
    (l : List AutofixSuggestion) :
    (filterOverlappingEdits sourceLines l).Pairwise
      (fun a b => rangesOverlap sourceLines a.edit.range b.edit.range = false) :=
  filterOverlappingAux_pairwise sourceLines l [] (List.Pairwise.nil)

/-- On an already pairwise non-overlapping input, the overlap filter keeps
everything. -/
theorem filterOverlappingAux_of_pairwise (sourceLines : List String)
    {l : List AutofixSuggestion}
    (hl : l.Pairwise
      (fun a b => rangesOverlap sourceLines a.edit.range b.edit.range = false)) :
    ∀ acc, (∀ s ∈ l, ∀ t ∈ acc,
        rangesOverlap sourceLines s.edit.range t.edit.range = false) →
      filterOverlappingAux sourceLines acc l = acc ++ l := by
  induction l with
  | nil => simp [filterOverlappingAux]
  | cons s rest ih =>
    intro acc hcross
    rw [List.pairwise_cons] at hl
    have hany : (acc.any fun t =>
        rangesOverlap sourceLines s.edit.range t.edit.range) = false := by
      rw [List.any_eq_false]
      intro t ht
      simp [hcross s (List.mem_cons_self s rest) t ht]
    simp only [filterOverlappingAux, hany]
    rw [if_neg (by simp)]
    rw [ih hl.2 (acc ++ [s]) ?_]
    · simp
    · intro s' hs' t ht
      rcases List.mem_append.mp ht with ht | ht
      · exact hcross s' (List.mem_cons_of_mem s hs') t ht
      · rw [List.mem_singleton] at ht
        subst ht
        rw [rangesOverlap_comm]
        exact hl.1 s' hs'

/-- A pairwise non-overlapping list is a fixed point of `filterOverlappingEdits`. -/
theorem filterOverlappingEdits_eq_self (sourceLines : List String)
    {l : List AutofixSuggestion}
    (hl : l.Pairwise
      (fun a b => rangesOverlap sourceLines a.edit.range b.edit.range = false)) :
    filterOverlappingEdits sourceLines l = l := by
  rw [filterOverlappingEdits, filterOverlappingAux_of_pairwise sourceLines hl [] (by simp)]
  simp

/-- The application loop in terms of its three projections. -/
theorem applyLoop_eq (l : List AutofixSuggestion) :
    ∀ (sourceLines : List String) (n : Nat) (errs : List AutofixError),
      applyLoop sourceLines n errs l =
        (finalLines sourceLines l, n + (appliedList sourceLines l).length,
          errs ++ loopErrors sourceLines l) := by
  induction l with
  | nil => intro lines n errs; simp [applyLoop, finalLines, appliedList, loopErrors]
  | cons s rest ih =>
    intro lines n errs
    cases h : applyTextEdit lines s.edit with
    | ok newLines =>
      simp only [applyLoop, finalLines, appliedList, loopErrors, h]
      rw [ih]
      simp only [Prod.mk.injEq, List.length_cons, true_and, and_true]
      omega
    | error msg =>
      simp only [applyLoop, finalLines, appliedList, loopErrors, h]
      rw [ih]
      simp [List.append_assoc]

/-- The edits applied without throwing form a sub-list of the loop's input. -/
theorem appliedList_sublist (l : List AutofixSuggestion) :
    ∀ sourceLines : List String, (appliedList sourceLines l).Sublist l := by
  induction l with
  | nil => intro lines; simp [appliedList]
  | cons s rest ih =>
    intro lines
    simp only [appliedList]
    cases h : applyTextEdit lines s.edit with
    | ok newLines => exact (ih newLines).cons₂ s
    | error msg => exact (ih lines).cons s

/-- Applied count plus error count equals the number of accepted edits. -/
theorem appliedList_length_add_loopErrors_length (l : List AutofixSuggestion) :
    ∀ sourceLines : List String,
      (appliedList sourceLines l).length + (loopErrors sourceLines l).length
        = l.length := by
  induction l with
  | nil => intro lines; simp [appliedList, loopErrors]
  | cons s rest ih =>
    intro lines
    simp only [appliedList, loopErrors]
    cases h : applyTextEdit lines s.edit with
    | ok newLines => simp only [List.length_cons]; rw [← ih newLines]; omega
    | error msg => simp only [List.length_cons]; rw [← ih lines]; omega

/-- Every error-ledger entry carries the ruleId and the start position of one
of the accepted edits handed to the loop. -/
theorem loopErrors_provenance (l : List AutofixSuggestion) :
    ∀ sourceLines : List String, ∀ e ∈ loopErrors sourceLines l,
      ∃ s ∈ l, e.ruleId = s.ruleId ∧ e.position = some s.edit.range.start := by
  induction l with
  | nil => intro lines e he; simp [loopErrors] at he
  | cons s rest ih =>
    intro lines e he
    simp only [loopErrors] at he
    revert he
    cases h : applyTextEdit lines s.edit with
    | ok newLines =>
      intro he
      obtain ⟨t, ht, h1, h2⟩ := ih newLines e he
      exact ⟨t, List.mem_cons_of_mem s ht, h1, h2⟩
    | error msg =>
      intro he
      rcases List.mem_cons.mp he with rfl | he
      · exact ⟨s, List.mem_cons_self s rest, rfl, rfl⟩
      · obtain ⟨t, ht, h1, h2⟩ := ih lines e he
        exact ⟨t, List.mem_cons_of_mem s ht, h1, h2⟩

/-- A `String` is its character list. -/
theorem string_mk_data (s : String) : String.mk s.data = s := rfl

/-- Splitting a newline-free tail yields one line. -/
theorem splitLinesAux_no_newline {cs : List Char} (h : '\n' ∉ cs) :
    ∀ cur, splitLinesAux cs cur = [String.mk (cur.reverse ++ cs)] := by
  induction cs with
  | nil => intro cur; simp [splitLinesAux]
  | cons c cs ih =>
    intro cur
    have hc : ¬ c = '\n' := fun hc => h (hc ▸ List.mem_cons_self c cs)
    have hcs : '\n' ∉ cs := fun hm => h (List.mem_cons_of_mem c hm)
    simp only [splitLinesAux, if_neg (fun hh => hc (by simpa using hh))]
    rw [ih hcs]
    simp

/-- Splitting past the first newline peels off one line. -/
theorem splitLinesAux_append_newline {cs : List Char} (h : '\n' ∉ cs)
    (rest : List Char) :
    ∀ cur, splitLinesAux (cs ++ '\n' :: rest) cur =
      String.mk (cur.reverse ++ cs) :: splitLinesAux rest [] := by
  induction cs with
  | nil => intro cur; simp [splitLinesAux]
  | cons c cs ih =>
    intro cur
    have hc : ¬ c = '\n' := fun hc => h (hc ▸ List.mem_cons_self c cs)
    have hcs : '\n' ∉ cs := fun hm => h (List.mem_cons_of_mem c hm)
    show splitLinesAux (c :: (cs ++ '\n' :: rest)) cur = _
    simp only [splitLinesAux, if_neg (fun hh => hc (by simpa using hh))]
    rw [ih hcs]
    simp

/-- No produced line contains a newline. -/
theorem splitLinesAux_no_newline_mem (cs : List Char) :
    ∀ cur, '\n' ∉ cur → ∀ l ∈ splitLinesAux cs cur, '\n' ∉ l.data := by
  induction cs with
  | nil =>
    intro cur hcur l hl
    simp only [splitLinesAux, List.mem_singleton] at hl
    subst hl
    simpa using hcur
  | cons c cs ih =>
    intro cur hcur l hl
    by_cases hc : c = '\n'
    · subst hc
      simp only [splitLinesAux, if_pos rfl] at hl
      cases hl with
      | head => simpa using hcur
      | tail _ hl => exact ih [] (by simp) l hl
    · simp only [splitLinesAux, if_neg (fun hh => hc (by simpa using hh))] at hl
      refine ih (c :: cur) ?_ l hl
      intro hm
      rcases List.mem_cons.mp hm with h1 | h1
      · exact hc h1.symm
      · exact hcur h1

/-- Lines of a split never contain a newline. -/
theorem splitLines_no_newline (s : String) :
    ∀ l ∈ splitLines s, '\n' ∉ l.data :=
  splitLinesAux_no_newline_mem s.data [] (by simp)

/-- A split is never empty. -/
theorem splitLinesAux_ne_nil (cs : List Char) : ∀ cur, splitLinesAux cs cur ≠ [] := by
  induction cs with
  | nil => intro cur; simp [splitLinesAux]
  | cons c cs ih =>
    intro cur
    by_cases hc : c = '\n'
    · subst hc; simp [splitLinesAux]
    · simp only [splitLinesAux, if_neg (fun hh => hc (by simpa using hh))]
      exact ih (c :: cur)

/-- The engine's line buffer is never empty. -/
theorem splitLines_ne_nil (s : String) : splitLines s ≠ [] :=
  splitLinesAux_ne_nil s.data []

/-- Joining newline-free lines and re-splitting is the identity: the
`previewEdits` engine sees the same line buffer. -/
theorem splitLines_joinLines {ls : List String}
    (hnl : ∀ l ∈ ls, '\n' ∉ l.data) (hne : ls ≠ []) :
    splitLines (joinLines ls) = ls := by
  induction ls with
  | nil => exact absurd rfl hne
  | cons l ls ih =>
    cases ls with
    | nil =>
      simp only [joinLines, splitLines]
      rw [splitLinesAux_no_newline (hnl l (List.mem_cons_self l [])) []]
      simp [string_mk_data]
    | cons l2 ls2 =>
      have hdata : (joinLines (l :: l2 :: ls2)).data =
          l.data ++ '\n' :: (joinLines (l2 :: ls2)).data := by
        show (l ++ "\n" ++ joinLines (l2 :: ls2)).data = _
        rw [String.data_append, String.data_append,
          show ("\n").data = ['\n'] from rfl, List.append_assoc]
        rfl
      rw [splitLines, hdata,
        splitLinesAux_append_newline (hnl l (List.mem_cons_self l _)) _ []]
      rw [show splitLinesAux (joinLines (l2 :: ls2)).data [] =
        splitLines (joinLines (l2 :: ls2)) from rfl]
      rw [ih (fun x hx => hnl x (List.mem_cons_of_mem l hx)) (by simp)]
      simp [string_mk_data]

/-- The cap keeps a sub-list. -/
theorem capEdits_sublist (maxEdits : Int) (l : List AutofixSuggestion) :
    (capEdits maxEdits l).Sublist l := by
  unfold capEdits
  split
  · exact List.take_sublist _ l
  · exact List.Sublist.refl l

/-- The overlap filter keeps a sub-list. -/
theorem filterOverlappingEdits_sublist (sourceLines : List String)
    (l : List AutofixSuggestion) :
    (filterOverlappingEdits sourceLines l).Sublist l := by
  obtain ⟨r, hr, hsub⟩ := filterOverlappingAux_eq_append sourceLines l []
  rw [filterOverlappingEdits, hr]
  simpa using hsub

/-- Every accepted edit is one of the input suggestions and passed the
validation filter. -/
theorem mem_acceptedEdits {sourceLines : List String} {safeOnly : Bool}
    {maxEdits : Int} {suggestions : List AutofixSuggestion}
    {s : AutofixSuggestion}
    (h : s ∈ acceptedEdits sourceLines safeOnly maxEdits suggestions) :
    s ∈ suggestions ∧ suggestionAccepted sourceLines safeOnly s = true := by
  unfold acceptedEdits at h
  have h1 := (capEdits_sublist _ _).mem h
  have h2 := mem_filterOverlappingEdits h1
  rw [mem_sortSuggestionsForApplication] at h2
  rw [validateAndFilterSuggestions, List.mem_filter] at h2
  exact h2

/-- The accepted edits are pairwise non-overlapping. -/
theorem acceptedEdits_pairwise (sourceLines : List String) (safeOnly : Bool)
    (maxEdits : Int) (suggestions : List AutofixSuggestion) :
    (acceptedEdits sourceLines safeOnly maxEdits suggestions).Pairwise
      (fun a b => rangesOverlap sourceLines a.edit.range b.edit.range = false) := by
  unfold acceptedEdits
  exact (filterOverlappingEdits_pairwise sourceLines _).sublist (capEdits_sublist _ _)

/-- The accepted edits are sorted by the comparator. -/
theorem acceptedEdits_sorted (sourceLines : List String) (safeOnly : Bool)
    (maxEdits : Int) (suggestions : List AutofixSuggestion) :
    (acceptedEdits sourceLines safeOnly maxEdits suggestions).Pairwise
      (fun a b => compareForApplication a b ≤ 0) := by
  unfold acceptedEdits
  exact (pairwise_sortSuggestionsForApplication
      (validateAndFilterSuggestions sourceLines safeOnly suggestions)).sublist
    ((capEdits_sublist _ _).trans (filterOverlappingEdits_sublist _ _))

/-- With an empty valid list, the pipeline accepts nothing. -/
theorem acceptedEdits_of_valid_nil {sourceLines : List String} {safeOnly : Bool}
    {suggestions : List AutofixSuggestion}
    (h : validateAndFilterSuggestions sourceLines safeOnly suggestions = [])
    (maxEdits : Int) :
    acceptedEdits sourceLines safeOnly maxEdits suggestions = [] := by
  unfold acceptedEdits
  rw [h]
  show capEdits maxEdits (filterOverlappingEdits sourceLines []) = []
  unfold filterOverlappingEdits filterOverlappingAux capEdits
  split <;> simp

/-- With a nonempty valid list and a positive-or-unlimited cap, the pipeline
accepts at least one edit. -/
theorem acceptedEdits_ne_nil {sourceLines : List String} {safeOnly : Bool}
    {suggestions : List AutofixSuggestion} {maxEdits : Int}
    (h : validateAndFilterSuggestions sourceLines safeOnly suggestions ≠ []) :
    acceptedEdits sourceLines safeOnly maxEdits suggestions ≠ [] := by
  unfold acceptedEdits
  have hsort : sortSuggestionsForApplication
      (validateAndFilterSuggestions sourceLines safeOnly suggestions) ≠ [] := by
    intro hs
    refine h (List.eq_nil_iff_forall_not_mem.mpr fun x hx => ?_)
    have := mem_sortSuggestionsForApplication.mpr hx
    rw [hs] at this
    simp at this
  obtain ⟨y, ys, hys⟩ := List.exists_cons_of_ne_nil hsort
  rw [hys]
  show capEdits maxEdits (filterOverlappingAux sourceLines [] (y :: ys)) ≠ []
  simp only [filterOverlappingAux, List.any_nil]
  rw [if_neg (by simp)]
  obtain ⟨r, hr, hsub⟩ := filterOverlappingAux_eq_append sourceLines ys [y]
  rw [show ([] : List AutofixSuggestion) ++ [y] = [y] from rfl, hr]
  unfold capEdits
  split
  · rename_i hpos
    have : maxEdits.toNat ≠ 0 := by omega
    cases hm : maxEdits.toNat with
    | zero => exact absurd hm this
    | succ k => simp [hm, List.take_cons]
  · simp

/-- Closed form of the non-dry run: early return on an empty valid list,
otherwise the loop over the accepted edits. -/
theorem applyFixesNoDry_eq (sourceLines : List String)
    (suggestions : List AutofixSuggestion) (safeOnly : Bool) (maxEdits : Int) :
    applyFixesNoDry sourceLines suggestions safeOnly maxEdits =
      if validateAndFilterSuggestions sourceLines safeOnly suggestions = [] then
        ({ success := true, appliedEdits := 0, errors := [],
           modifiedContent := none }, sourceLines)
      else
        ({ success := (loopErrors sourceLines
              (acceptedEdits sourceLines safeOnly maxEdits suggestions)).length = 0,
           appliedEdits := (appliedList sourceLines
              (acceptedEdits sourceLines safeOnly maxEdits suggestions)).length,
           errors := loopErrors sourceLines
              (acceptedEdits sourceLines safeOnly maxEdits suggestions),
           modifiedContent := some (joinLines (finalLines sourceLines
              (acceptedEdits sourceLines safeOnly maxEdits suggestions))) },
          finalLines sourceLines
            (acceptedEdits sourceLines safeOnly maxEdits suggestions)) := by
  unfold applyFixesNoDry
  by_cases hv : validateAndFilterSuggestions sourceLines safeOnly suggestions = []
  · rw [if_pos (by simp [hv]), if_pos hv]
  · rw [if_neg (by simp [hv, List.length_eq_zero]), if_neg hv]
    simp only [acceptedEdits, applyLoop_eq]
    simp

/-- Closed form of the dry run. -/
theorem applyFixesFull_dry_eq (sourceLines : List String)
    (suggestions : List AutofixSuggestion) (options : AutofixOptions)
    (hdry : options.dryRun = true) :
    applyFixesFull sourceLines suggestions options =
      if validateAndFilterSuggestions sourceLines options.safeOnly suggestions = [] then
        ({ success := true, appliedEdits := 0, errors := [],
           modifiedContent := none }, sourceLines)
      else
        ({ success := true,
           appliedEdits := (acceptedEdits sourceLines options.safeOnly
              options.maxEdits suggestions).length,
           errors := [],
           modifiedContent := some (previewEdits sourceLines
              (acceptedEdits sourceLines options.safeOnly options.maxEdits
                suggestions)) }, sourceLines) := by
  unfold applyFixesFull
  by_cases hv : validateAndFilterSuggestions sourceLines options.safeOnly suggestions = []
  · rw [if_pos (by simp [hv]), if_pos hv]
  · rw [if_neg (by simp [hv, List.length_eq_zero]), if_neg hv, if_pos hdry]
    simp [acceptedEdits]

/-- A non-dry `applyFixes` is the non-dry pipeline. -/
theorem applyFixesFull_noDry_eq (sourceLines : List String)
    (suggestions : List AutofixSuggestion) (options : AutofixOptions)
    (hdry : options.dryRun = false) :
    applyFixesFull sourceLines suggestions options =
      applyFixesNoDry sourceLines suggestions options.safeOnly options.maxEdits := by
  unfold applyFixesFull applyFixesNoDry
  by_cases hv : (validateAndFilterSuggestions sourceLines options.safeOnly
      suggestions).length = 0
  · rw [if_pos hv, if_pos hv]
  · rw [if_neg hv, if_neg hv, if_neg (by simp [hdry])]

/-- A dry run never touches the engine's line buffer. -/
theorem applyFixesFull_dry_state (sourceLines : List String)
    (suggestions : List AutofixSuggestion) (options : AutofixOptions)
    (hdry : options.dryRun = true) :
    (applyFixesFull sourceLines suggestions options).2 = sourceLines := by
  rw [applyFixesFull_dry_eq sourceLines suggestions options hdry]
  split <;> rfl

/-- Applied edits never outnumber the accepted edits. -/
theorem appliedEdits_le_accepted (sourceLines : List String)
    (suggestions : List AutofixSuggestion) (options : AutofixOptions) :
    (applyFixesFull sourceLines suggestions options).1.appliedEdits ≤
      (acceptedEdits sourceLines options.safeOnly options.maxEdits
        suggestions).length := by
  by_cases hdry : options.dryRun = true
  · rw [applyFixesFull_dry_eq _ _ _ hdry]
    split
    · simp
    · exact Nat.le_refl _
  · rw [applyFixesFull_noDry_eq _ _ _ (by simpa using hdry), applyFixesNoDry_eq]
    split
    · simp
    · exact ((appliedList_sublist _ _).length_le)

/-- With a positive cap, the accepted edits are the first `maxEdits` of the
deduplicated sorted list. -/
theorem acceptedEdits_take (sourceLines : List String) (safeOnly : Bool)
    {maxEdits : Int} (hpos : 0 < maxEdits)
    (suggestions : List AutofixSuggestion) :
    acceptedEdits sourceLines safeOnly maxEdits suggestions =
      (filterOverlappingEdits sourceLines
        (sortSuggestionsForApplication
          (validateAndFilterSuggestions sourceLines safeOnly
            suggestions))).take maxEdits.toNat := by
  unfold acceptedEdits capEdits
  rw [if_pos hpos]

/-! ## The claims -/

/-- C1: for every source text, suggestion list and options, the original
ranges of the edits actually applied by `applyFixes` are pairwise
non-overlapping in the half-open linearized-offset sense — for every pair of
applied edits, not just adjacent ones; and in a non-dry run `appliedEdits`
counts exactly the edits of that applied list. -/
theorem C1_applied_nonoverlapping (sourceCode : String)
    (suggestions : List AutofixSuggestion) (options : AutofixOptions) :
    (appliedList (splitLines sourceCode)
        (acceptedEdits (splitLines sourceCode) options.safeOnly options.maxEdits
          suggestions)).Pairwise
      (fun a b =>
        rangesOverlap (splitLines sourceCode) a.edit.range b.edit.range = false)
    ∧ (options.dryRun = false →
        (applyFixes sourceCode suggestions options).appliedEdits =
          (appliedList (splitLines sourceCode)
            (acceptedEdits (splitLines sourceCode) options.safeOnly
              options.maxEdits suggestions)).length) := by
  constructor
  · exact (acceptedEdits_pairwise _ _ _ _).sublist (appliedList_sublist _ _)
  · intro hdry
    unfold applyFixes
    rw [applyFixesFull_noDry_eq _ _ _ hdry, applyFixesNoDry_eq]
    split
    · rename_i hv
      rw [acceptedEdits_of_valid_nil hv]
      rfl
    · rfl

/-- C1 witness: the non-overlap invariant and the applied-edit count at a
concrete run with two overlapping suggestions. -/
theorem C1_witness :
    (appliedList (splitLines "abcdefghij")
        (acceptedEdits (splitLines "abcdefghij") true 100
          [sugTieA, sugTieB])).Pairwise
      (fun a b =>
        rangesOverlap (splitLines "abcdefghij") a.edit.range b.edit.range = false)
    ∧ (applyFixes "abcdefghij" [sugTieA, sugTieB] {}).appliedEdits =
        (appliedList (splitLines "abcdefghij")
          (acceptedEdits (splitLines "abcdefghij") true 100
            [sugTieA, sugTieB])).length :=
  ⟨(C1_applied_nonoverlapping "abcdefghij" [sugTieA, sugTieB] {}).1,
    (C1_applied_nonoverlapping "abcdefghij" [sugTieA, sugTieB] {}).2 rfl⟩

/-- C3 counterexample: `applyFixes` on an empty suggestion list returns no
`modifiedContent` at all (the early return omits the field), so the claimed
round-trip `modifiedContent == text` fails at source text `"a"`. -/
theorem C3_counterexample :
    ¬ ((applyFixes "a" [] {}).success = true ∧
       (applyFixes "a" [] {}).appliedEdits = 0 ∧
       (applyFixes "a" [] {}).modifiedContent = some "a") := by decide

/-- C3 as amended: `applyFixes(text, [])` returns `success = true`,
`appliedEdits = 0`, an empty error list and **no** `modifiedContent`
(`undefined`, modelled `none`), and leaves the line buffer unmodified. -/
theorem C3_empty_suggestions (sourceCode : String) (options : AutofixOptions) :
    applyFixes sourceCode [] options =
      { success := true, appliedEdits := 0, errors := [],
        modifiedContent := none }
    ∧ (applyFixesFull (splitLines sourceCode) [] options).2 =
        splitLines sourceCode := by
  constructor
  · unfold applyFixes applyFixesFull
    simp [validateAndFilterSuggestions]
  · unfold applyFixesFull
    simp [validateAndFilterSuggestions]

/-- C5: in a non-dry run, `success` holds exactly when the error ledger is
empty; applied count plus error count exhausts the accepted edits, the ledger
is exactly the loop's ledger, and every entry carries the ruleId and start
position of one accepted edit. -/
theorem C5_error_ledger (sourceCode : String)
    (suggestions : List AutofixSuggestion) (options : AutofixOptions)
    (hdry : options.dryRun = false) :
    ((applyFixes sourceCode suggestions options).success = true ↔
      (applyFixes sourceCode suggestions options).errors = [])
    ∧ (applyFixes sourceCode suggestions options).appliedEdits +
        (applyFixes sourceCode suggestions options).errors.length =
        (acceptedEdits (splitLines sourceCode) options.safeOnly options.maxEdits
          suggestions).length
    ∧ (applyFixes sourceCode suggestions options).errors =
        loopErrors (splitLines sourceCode)
          (acceptedEdits (splitLines sourceCode) options.safeOnly
            options.maxEdits suggestions)
    ∧ ∀ e ∈ (applyFixes sourceCode suggestions options).errors,
        ∃ s ∈ acceptedEdits (splitLines sourceCode) options.safeOnly
            options.maxEdits suggestions,
          e.ruleId = s.ruleId ∧ e.position = some s.edit.range.start := by
  unfold applyFixes
  rw [applyFixesFull_noDry_eq _ _ _ hdry, applyFixesNoDry_eq]
  split
  · rename_i hv
    rw [acceptedEdits_of_valid_nil hv]
    exact ⟨by simp, by simp [appliedList, loopErrors], by simp [loopErrors],
      by simp⟩
  · refine ⟨by simp [List.length_eq_zero], ?_, rfl, ?_⟩
    · exact appliedList_length_add_loopErrors_length _ _
    · exact fun e he => loopErrors_provenance _ _ e he

/-- C5 witness: the ledger properties at a concrete non-dry run. -/
theorem C5_witness :
    ((applyFixes "abcdefghij" [sugBig] {}).success = true ↔
      (applyFixes "abcdefghij" [sugBig] {}).errors = [])
    ∧ (applyFixes "abcdefghij" [sugBig] {}).appliedEdits +
        (applyFixes "abcdefghij" [sugBig] {}).errors.length =
        (acceptedEdits (splitLines "abcdefghij") true 100 [sugBig]).length
    ∧ (applyFixes "abcdefghij" [sugBig] {}).errors =
        loopErrors (splitLines "abcdefghij")
          (acceptedEdits (splitLines "abcdefghij") true 100 [sugBig])
    ∧ ∀ e ∈ (applyFixes "abcdefghij" [sugBig] {}).errors,
        ∃ s ∈ acceptedEdits (splitLines "abcdefghij") true 100 [sugBig],
          e.ruleId = s.ruleId ∧ e.position = some s.edit.range.start :=
  C5_error_ledger "abcdefghij" [sugBig] {} rfl

/-- C6: a suggestion that is non-info under `safeOnly`, or whose range is
malformed or out of bounds, fails the validation filter: it is never among
the accepted edits, never among the applied edits, and every error-ledger
entry of the run comes from a suggestion that *passed* validation, so the
discarded one is dropped silently. -/
theorem C6_validation_filter (sourceCode : String)
    (suggestions : List AutofixSuggestion) (options : AutofixOptions)
    (s : AutofixSuggestion) (_hs : s ∈ suggestions)
    (hbad : (options.safeOnly = true ∧ s.severity ≠ Severity.info) ∨
      isValidRange s.edit.range = false ∨
      isRangeInBounds (splitLines sourceCode) s.edit.range = false) :
    suggestionAccepted (splitLines sourceCode) options.safeOnly s = false
    ∧ s ∉ acceptedEdits (splitLines sourceCode) options.safeOnly
        options.maxEdits suggestions
    ∧ s ∉ appliedList (splitLines sourceCode)
        (acceptedEdits (splitLines sourceCode) options.safeOnly
          options.maxEdits suggestions)
    ∧ ∀ e ∈ (applyFixes sourceCode suggestions options).errors,
        ∃ t ∈ acceptedEdits (splitLines sourceCode) options.safeOnly
            options.maxEdits suggestions,
          suggestionAccepted (splitLines sourceCode) options.safeOnly t = true
          ∧ e.ruleId = t.ruleId ∧ e.position = some t.edit.range.start := by
  have hacc : suggestionAccepted (splitLines sourceCode) options.safeOnly s
      = false := by
    unfold suggestionAccepted
    split
    · rfl
    · split
      · rfl
      · split
        · rfl
        · rename_i h1 h2 h3
          exfalso
          rcases hbad with ⟨hso, hsev⟩ | h | h
          · exact h1 (by simp [hso, hsev])
          · exact h2 (by simp [h])
          · exact h3 (by simp [h])
  have hnmem : s ∉ acceptedEdits (splitLines sourceCode) options.safeOnly
      options.maxEdits suggestions := by
    intro hmem
    have := (mem_acceptedEdits hmem).2
    rw [hacc] at this
    exact Bool.false_ne_true this
  refine ⟨hacc, hnmem, fun hmem => hnmem ((appliedList_sublist _ _).mem hmem), ?_⟩
  intro e he
  by_cases hdry : options.dryRun = true
  · exfalso
    unfold applyFixes at he
    rw [applyFixesFull_dry_eq _ _ _ hdry] at he
    revert he
    split <;> simp
  · unfold applyFixes at he
    rw [applyFixesFull_noDry_eq _ _ _ (by simpa using hdry),
      applyFixesNoDry_eq] at he
    revert he
    split
    · simp
    · intro he
      obtain ⟨t, ht, h1, h2⟩ := loopErrors_provenance _ _ e he
      exact ⟨t, ht, (mem_acceptedEdits ht).2, h1, h2⟩

/-- C6 witness: a warn-severity suggestion under default (safe-only) options
is discarded and produces nothing. -/
theorem C6_witness :
    suggestionAccepted (splitLines "abc") true warnSug = false
    ∧ warnSug ∉ acceptedEdits (splitLines "abc") true 100 [warnSug]
    ∧ warnSug ∉ appliedList (splitLines "abc")
        (acceptedEdits (splitLines "abc") true 100 [warnSug])
    ∧ ∀ e ∈ (applyFixes "abc" [warnSug] {}).errors,
        ∃ t ∈ acceptedEdits (splitLines "abc") true 100 [warnSug],
          suggestionAccepted (splitLines "abc") true t = true
          ∧ e.ruleId = t.ruleId ∧ e.position = some t.edit.range.start :=
  C6_validation_filter "abc" [warnSug] {} warnSug (by decide)
    (Or.inl ⟨rfl, by decide⟩)

/-- C7: a positive `maxEdits` truncates the accepted edits to exactly the
first `maxEdits` of the deduplicated bottom-to-top list and caps the applied
count; zero or negative `maxEdits` means no truncation. -/
theorem C7_maxEdits_cap (sourceCode : String)
    (suggestions : List AutofixSuggestion) (options : AutofixOptions) :
    (0 < options.maxEdits →
      acceptedEdits (splitLines sourceCode) options.safeOnly options.maxEdits
          suggestions =
        (filterOverlappingEdits (splitLines sourceCode)
          (sortSuggestionsForApplication
            (validateAndFilterSuggestions (splitLines sourceCode)
              options.safeOnly suggestions))).take options.maxEdits.toNat
      ∧ (applyFixes sourceCode suggestions options).appliedEdits ≤
          options.maxEdits.toNat)
    ∧ (options.maxEdits ≤ 0 →
      acceptedEdits (splitLines sourceCode) options.safeOnly options.maxEdits
          suggestions =
        filterOverlappingEdits (splitLines sourceCode)
          (sortSuggestionsForApplication
            (validateAndFilterSuggestions (splitLines sourceCode)
              options.safeOnly suggestions))) := by
  constructor
  · intro hpos
    have hcap := acceptedEdits_take (splitLines sourceCode) options.safeOnly
      hpos suggestions
    refine ⟨hcap, ?_⟩
    have h1 := appliedEdits_le_accepted (splitLines sourceCode) suggestions options
    rw [hcap] at h1
    exact h1.trans (List.length_take_le _ _)
  · intro hneg
    unfold acceptedEdits capEdits
    rw [if_neg (by omega)]

/-- C7 witness: ten non-overlapping valid suggestions with `maxEdits = 3`
yield exactly 3 applied edits, the first 3 in sorted order. -/
theorem C7_witness :
    (0 : Int) < 3
    ∧ (acceptedEdits (splitLines "aaaaaaaaaaaaaaaaaaaa") true 3 tenSugs =
        (filterOverlappingEdits (splitLines "aaaaaaaaaaaaaaaaaaaa")
          (sortSuggestionsForApplication
            (validateAndFilterSuggestions (splitLines "aaaaaaaaaaaaaaaaaaaa")
              true tenSugs))).take 3
      ∧ (applyFixes "aaaaaaaaaaaaaaaaaaaa" tenSugs
          { maxEdits := 3 }).appliedEdits ≤ 3)
    ∧ (applyFixes "aaaaaaaaaaaaaaaaaaaa" tenSugs { maxEdits := 3 }).appliedEdits
        = 3 :=
  ⟨by decide,
    (C7_maxEdits_cap "aaaaaaaaaaaaaaaaaaaa" tenSugs { maxEdits := 3 }).1
      (by decide),
    by decide⟩

/-- C10: with the options argument left at its defaults, `safeOnly = true`
and `maxEdits = 100`: at most 100 edits are applied, and a suggestion whose
severity is not info is never accepted. -/
theorem C10_default_options (sourceCode : String)
    (suggestions : List AutofixSuggestion) :
    ({} : AutofixOptions).safeOnly = true
    ∧ ({} : AutofixOptions).maxEdits = 100
    ∧ (applyFixes sourceCode suggestions {}).appliedEdits ≤ 100
    ∧ ∀ s ∈ suggestions, s.severity ≠ Severity.info →
        s ∉ acceptedEdits (splitLines sourceCode) true 100 suggestions := by
  refine ⟨rfl, rfl, ?_, ?_⟩
  · have h1 := appliedEdits_le_accepted (splitLines sourceCode) suggestions {}
    have h2 := acceptedEdits_take (splitLines sourceCode) true
      (show (0 : Int) < 100 by decide) suggestions
    rw [show (applyFixes sourceCode suggestions {}).appliedEdits =
      (applyFixesFull (splitLines sourceCode) suggestions
        ({} : AutofixOptions)).1.appliedEdits from rfl]
    rw [show acceptedEdits (splitLines sourceCode)
        ({} : AutofixOptions).safeOnly ({} : AutofixOptions).maxEdits suggestions
      = acceptedEdits (splitLines sourceCode) true 100 suggestions from rfl] at h1
    rw [h2] at h1
    exact h1.trans (List.length_take_le _ _)
  · intro s _ hsev hmem
    have := (mem_acceptedEdits hmem).2
    unfold suggestionAccepted at this
    rw [if_pos (by simp [hsev])] at this
    exact Bool.false_ne_true this

/-- C10 witness: a warn suggestion with defaulted options is not accepted. -/
theorem C10_witness :
    warnSug ∈ [warnSug] ∧ warnSug.severity ≠ Severity.info
    ∧ warnSug ∉ acceptedEdits (splitLines "abc") true 100 [warnSug] :=
  ⟨by decide, by decide,
    (C10_default_options "abc" [warnSug]).2.2.2 warnSug (by decide) (by decide)⟩

/-- Neither of two accepted suggestions is dropped by validation. -/
theorem validate_pair {sourceLines : List String} {safeOnly : Bool}
    {a b : AutofixSuggestion}
    (ha : suggestionAccepted sourceLines safeOnly a = true)
    (hb : suggestionAccepted sourceLines safeOnly b = true) :
    validateAndFilterSuggestions sourceLines safeOnly [a, b] = [a, b] := by
  simp [validateAndFilterSuggestions, ha, hb]

/-- The cap never drops the sole accepted edit. -/
theorem capEdits_singleton (maxEdits : Int) (x : AutofixSuggestion) :
    capEdits maxEdits [x] = [x] := by
  unfold capEdits
  split
  · rename_i hpos
    cases hm : maxEdits.toNat with
    | zero => omega
    | succ k => simp
  · rfl

/-- C2 counterexample: two overlapping valid suggestions whose end positions
tie exactly: JS stable sort keeps input order on ties, so the first one in
the input wins, and swapping the input order changes both the retained edit
and the resulting text — refuting the claimed tie-break and order
independence. -/
theorem C2_counterexample :
    rangesOverlap (splitLines "abcdefghij") sugTieA.edit.range
      sugTieB.edit.range = true
    ∧ validateAndFilterSuggestions (splitLines "abcdefghij") true
        [sugTieA, sugTieB] = [sugTieA, sugTieB]
    ∧ sugTieA.edit.range.stop = sugTieB.edit.range.stop
    ∧ (applyFixes "abcdefghij" [sugTieA, sugTieB] {}).modifiedContent = some "X"
    ∧ (applyFixes "abcdefghij" [sugTieB, sugTieA] {}).modifiedContent =
        some "abcdeY"
    ∧ (applyFixes "abcdefghij" [sugTieA, sugTieB] {}).modifiedContent ≠
        (applyFixes "abcdefghij" [sugTieB, sugTieA] {}).modifiedContent := by
  decide

/-- C2 as amended: for two overlapping valid suggestions with *distinct* end
positions, the one with the larger end position (later line, or larger end
column within the same line) is the single retained edit in either input
order, and the whole result of `applyFixes` is order-independent; when the
end positions tie exactly, the stable sort preserves input order and the
first suggestion of the input wins, so swapping the input changes the winner
(see the counterexample). -/
theorem C2_larger_end_wins (sourceCode : String) (a b : AutofixSuggestion)
    (options : AutofixOptions)
    (ha : suggestionAccepted (splitLines sourceCode) options.safeOnly a = true)
    (hb : suggestionAccepted (splitLines sourceCode) options.safeOnly b = true)
    (hov : rangesOverlap (splitLines sourceCode) a.edit.range b.edit.range
      = true)
    (hend : b.edit.range.stop.line < a.edit.range.stop.line ∨
      (b.edit.range.stop.line = a.edit.range.stop.line ∧
        b.edit.range.stop.column < a.edit.range.stop.column)) :
    acceptedEdits (splitLines sourceCode) options.safeOnly options.maxEdits
        [a, b] = [a]
    ∧ acceptedEdits (splitLines sourceCode) options.safeOnly options.maxEdits
        [b, a] = [a]
    ∧ applyFixesFull (splitLines sourceCode) [a, b] options =
        applyFixesFull (splitLines sourceCode) [b, a] options := by
  have hcmp : compareForApplication a b < 0 :=
    (compareForApplication_lt_iff a b).mpr hend
  have hncmp : ¬ compareForApplication b a < 0 := by
    have := compareForApplication_neg a b
    omega
  have hvab := validate_pair ha hb
  have hvba := validate_pair hb ha
  have hsort_ab : sortSuggestionsForApplication [a, b] = [a, b] := by
    simp [sortSuggestionsForApplication, insertSorted, hncmp]
  have hsort_ba : sortSuggestionsForApplication [b, a] = [a, b] := by
    simp [sortSuggestionsForApplication, insertSorted, hcmp]
  have hov' : rangesOverlap (splitLines sourceCode) b.edit.range a.edit.range
      = true := by
    rw [rangesOverlap_comm]
    exact hov
  have hfilter : filterOverlappingEdits (splitLines sourceCode) [a, b] = [a] := by
    simp [filterOverlappingEdits, filterOverlappingAux, hov']
  have hacc_ab : acceptedEdits (splitLines sourceCode) options.safeOnly
      options.maxEdits [a, b] = [a] := by
    unfold acceptedEdits
    rw [hvab, hsort_ab, hfilter, capEdits_singleton]
  have hacc_ba : acceptedEdits (splitLines sourceCode) options.safeOnly
      options.maxEdits [b, a] = [a] := by
    unfold acceptedEdits
    rw [hvba, hsort_ba, hfilter, capEdits_singleton]
  refine ⟨hacc_ab, hacc_ba, ?_⟩
  by_cases hdry : options.dryRun = true
  · rw [applyFixesFull_dry_eq _ _ _ hdry, applyFixesFull_dry_eq _ _ _ hdry]
    rw [if_neg (by rw [hvab]; simp), if_neg (by rw [hvba]; simp)]
    rw [hacc_ab, hacc_ba]
  · rw [applyFixesFull_noDry_eq _ _ _ (by simpa using hdry),
      applyFixesFull_noDry_eq _ _ _ (by simpa using hdry),
      applyFixesNoDry_eq, applyFixesNoDry_eq]
    rw [if_neg (by rw [hvab]; simp), if_neg (by rw [hvba]; simp)]
    rw [hacc_ab, hacc_ba]

/-- C2 witness: the larger-end suggestion wins in both input orders at a
concrete overlapping pair. -/
theorem C2_witness :
    acceptedEdits (splitLines "abcdefghij") true 100 [sugBig, sugSmall] = [sugBig]
    ∧ acceptedEdits (splitLines "abcdefghij") true 100 [sugSmall, sugBig]
        = [sugBig]
    ∧ applyFixesFull (splitLines "abcdefghij") [sugBig, sugSmall] {} =
        applyFixesFull (splitLines "abcdefghij") [sugSmall, sugBig] {} :=
  C2_larger_end_wins "abcdefghij" sugBig sugSmall {} (by decide) (by decide)
    (by decide) (by decide)

/-- C4 counterexample: `previewEdits` re-enters `applyFixes` with the
*default* options, so a dry run with `safeOnly = false` on a warn-severity
suggestion previews the unmodified text while the non-dry run applies the
edit — the claimed dry/non-dry agreement fails. -/
theorem C4_counterexample :
    (applyFixes "abc" [warnSug]
        { dryRun := true, safeOnly := false }).modifiedContent = some "abc"
    ∧ (applyFixes "abc" [warnSug]
        { dryRun := false, safeOnly := false }).modifiedContent = some "x"
    ∧ (applyFixes "abc" [warnSug]
        { dryRun := true, safeOnly := false }).modifiedContent ≠
      (applyFixes "abc" [warnSug]
        { dryRun := false, safeOnly := false }).modifiedContent := by
  decide

/-- C4 as amended: when the options stay inside the inner defaults that
`previewEdits` re-applies (`safeOnly = true`, `0 < maxEdits ≤ 100`) and the
non-dry result text is not the empty string (which the JS `||` fallback would
replace by the original text), a dry run returns the same `modifiedContent`
as the non-dry run, and the dry run provably leaves the engine's line buffer
unmodified. -/
theorem C4_dry_run_preview (sourceCode : String)
    (suggestions : List AutofixSuggestion) (options : AutofixOptions)
    (hso : options.safeOnly = true) (h0 : 0 < options.maxEdits)
    (h100 : options.maxEdits ≤ 100)
    (hne : (applyFixes sourceCode suggestions
        { options with dryRun := false }).modifiedContent ≠ some "") :
    (applyFixes sourceCode suggestions
        { options with dryRun := true }).modifiedContent =
      (applyFixes sourceCode suggestions
        { options with dryRun := false }).modifiedContent
    ∧ (applyFixesFull (splitLines sourceCode) suggestions
        { options with dryRun := true }).2 = splitLines sourceCode := by
  refine ⟨?_, applyFixesFull_dry_state _ _ _ rfl⟩
  have hsafeT : ({ options with dryRun := true } : AutofixOptions).safeOnly
      = options.safeOnly := rfl
  have hsafeF : ({ options with dryRun := false } : AutofixOptions).safeOnly
      = options.safeOnly := rfl
  have hmaxT : ({ options with dryRun := true } : AutofixOptions).maxEdits
      = options.maxEdits := rfl
  have hmaxF : ({ options with dryRun := false } : AutofixOptions).maxEdits
      = options.maxEdits := rfl
  by_cases hv : validateAndFilterSuggestions (splitLines sourceCode)
      options.safeOnly suggestions = []
  · unfold applyFixes
    rw [applyFixesFull_dry_eq _ _ _ rfl, applyFixesFull_noDry_eq _ _ _ rfl,
      applyFixesNoDry_eq, hsafeT, hsafeF, if_pos hv, if_pos hv]
  · have hnd : (applyFixes sourceCode suggestions
        { options with dryRun := false }).modifiedContent =
        some (joinLines (finalLines (splitLines sourceCode)
          (acceptedEdits (splitLines sourceCode) options.safeOnly
            options.maxEdits suggestions))) := by
      unfold applyFixes
      rw [applyFixesFull_noDry_eq _ _ _ rfl, applyFixesNoDry_eq, hsafeF, hmaxF,
        if_neg hv]
    have hs_ne : joinLines (finalLines (splitLines sourceCode)
        (acceptedEdits (splitLines sourceCode) options.safeOnly
          options.maxEdits suggestions)) ≠ "" := by
      intro h
      exact hne (by rw [hnd, h])
    have hmem_acc : ∀ t ∈ acceptedEdits (splitLines sourceCode)
        options.safeOnly options.maxEdits suggestions,
        suggestionAccepted (splitLines sourceCode) true t = true := by
      intro t ht
      have := (mem_acceptedEdits ht).2
      rwa [hso] at this
    have hval_final : validateAndFilterSuggestions (splitLines sourceCode) true
        (acceptedEdits (splitLines sourceCode) options.safeOnly
          options.maxEdits suggestions) =
        acceptedEdits (splitLines sourceCode) options.safeOnly
          options.maxEdits suggestions :=
      List.filter_eq_self.mpr hmem_acc
    have hfinal_ne : acceptedEdits (splitLines sourceCode) options.safeOnly
        options.maxEdits suggestions ≠ [] := acceptedEdits_ne_nil hv
    have hlen : (acceptedEdits (splitLines sourceCode) options.safeOnly
        options.maxEdits suggestions).length ≤ 100 := by
      rw [acceptedEdits_take _ _ h0]
      exact (List.length_take_le _ _).trans (by omega)
    have hinner : acceptedEdits (splitLines sourceCode) true 100
        (acceptedEdits (splitLines sourceCode) options.safeOnly
          options.maxEdits suggestions) =
        acceptedEdits (splitLines sourceCode) options.safeOnly
          options.maxEdits suggestions := by
      show capEdits 100
          (filterOverlappingEdits (splitLines sourceCode)
            (sortSuggestionsForApplication
              (validateAndFilterSuggestions (splitLines sourceCode) true
                (acceptedEdits (splitLines sourceCode) options.safeOnly
                  options.maxEdits suggestions)))) =
        acceptedEdits (splitLines sourceCode) options.safeOnly
          options.maxEdits suggestions
      rw [hval_final]
      rw [sortSuggestionsForApplication_eq_self
        (acceptedEdits_sorted (splitLines sourceCode) options.safeOnly
          options.maxEdits suggestions)]
      rw [filterOverlappingEdits_eq_self (splitLines sourceCode)
        (acceptedEdits_pairwise (splitLines sourceCode) options.safeOnly
          options.maxEdits suggestions)]
      unfold capEdits
      rw [if_pos (by norm_num)]
      exact List.take_of_length_le hlen
    have hpreview : previewEdits (splitLines sourceCode)
        (acceptedEdits (splitLines sourceCode) options.safeOnly
          options.maxEdits suggestions) =
        joinLines (finalLines (splitLines sourceCode)
          (acceptedEdits (splitLines sourceCode) options.safeOnly
            options.maxEdits suggestions)) := by
      unfold previewEdits
      simp only [splitLines_joinLines (splitLines_no_newline sourceCode)
        (splitLines_ne_nil sourceCode)]
      rw [applyFixesNoDry_eq, if_neg (by rw [hval_final]; exact hfinal_ne),
        hinner]
      simp [hs_ne]
    rw [hnd]
    unfold applyFixes
    rw [applyFixesFull_dry_eq _ _ _ rfl, hsafeT, hmaxT, if_neg hv]
    dsimp only
    rw [hpreview]

/-- C4 witness: dry and non-dry agreement at a concrete safe run. -/
theorem C4_witness :
    ({ dryRun := true } : AutofixOptions).safeOnly = true
    ∧ (0 : Int) < ({ dryRun := true } : AutofixOptions).maxEdits
    ∧ ({ dryRun := true } : AutofixOptions).maxEdits ≤ 100
    ∧ (applyFixes "abcdefghij" [sugBig]
        { dryRun := false }).modifiedContent ≠ some ""
    ∧ (applyFixes "abcdefghij" [sugBig]
          { dryRun := true }).modifiedContent =
        (applyFixes "abcdefghij" [sugBig] { dryRun := false }).modifiedContent
    ∧ (applyFixesFull (splitLines "abcdefghij") [sugBig]
        { dryRun := true }).2 = splitLines "abcdefghij" := by
  refine ⟨rfl, by decide, by decide, by decide, ?_⟩
  exact C4_dry_run_preview "abcdefghij" [sugBig] { dryRun := true } rfl
    (by decide) (by decide) (by decide)

/-- The active-rule collection distributes over list append. -/
theorem activeNodeRules_append {Node : Type} (config : RuleConfig)
    (L1 L2 : List (String × RuleDefinition Node)) :
    activeNodeRules config (L1 ++ L2) =
      activeNodeRules config L1 ++ activeNodeRules config L2 := by
  simp [activeNodeRules]

/-- Per-node output distributes over rule-list append. -/
theorem visitNodeOutput_append {Node : Type} (context : RuleContextInfo)
    (L1 L2 : List (String × RuleDefinition Node)) (n : Node) :
    visitNodeOutput context (L1 ++ L2) n =
      visitNodeOutput context L1 n ++ visitNodeOutput context L2 n := by
  simp [visitNodeOutput]

/-- Per-node output of a single registered rule. -/
theorem visitNodeOutput_active_singleton {Node : Type} (config : RuleConfig)
    (context : RuleContextInfo) (rid : String) (r : RuleDefinition Node)
    (n : Node) :
    visitNodeOutput context (activeNodeRules config [(rid, r)]) n =
      if (isRuleEnabled config rid && r.visitNode.isSome) = true then
        (match r.visitNode with
          | some v => (v n context).1
          | none => [])
      else [] := by
  unfold activeNodeRules
  by_cases hc : (isRuleEnabled config rid && r.visitNode.isSome) = true
  · rw [if_pos hc]
    simp [List.filter_cons, hc, visitNodeOutput]
  · rw [if_neg hc]
    simp only [Bool.not_eq_true] at hc
    simp [List.filter_cons, hc, visitNodeOutput]

/-- `analyzeJavaScript` ignores a middle rule whose per-node reported output
is always empty. -/
theorem analyzeJavaScript_middle_nil {Node : Type}
    (parse : String → Option (Tree Node)) (config : RuleConfig)
    (context : RuleContextInfo) (L1 L2 : List (String × RuleDefinition Node))
    (rid : String) (r : RuleDefinition Node)
    (hr : ∀ n : Node, (match r.visitNode with
      | some v => (v n context).1
      | none => []) = []) :
    analyzeJavaScript parse config (L1 ++ [(rid, r)] ++ L2) context =
      analyzeJavaScript parse config (L1 ++ L2) context := by
  unfold analyzeJavaScript
  cases parse context.sourceCode with
  | none => rfl
  | some ast =>
    have hfun : visitNodeOutput context
        (activeNodeRules config (L1 ++ [(rid, r)] ++ L2)) =
        visitNodeOutput context (activeNodeRules config (L1 ++ L2)) := by
      funext n
      simp only [activeNodeRules_append, visitNodeOutput_append,
        visitNodeOutput_active_singleton, hr, ite_self, List.append_nil,
        List.nil_append]
    rw [hfun]

/-- `analyzeJavaScript` only sees the reported part of a visitor, never the
throw flag: two middle rules with the same reported output and both carrying
a visitor are interchangeable. -/
theorem analyzeJavaScript_middle_congr {Node : Type}
    (parse : String → Option (Tree Node)) (config : RuleConfig)
    (context : RuleContextInfo) (L1 L2 : List (String × RuleDefinition Node))
    (rid : String) (r1 r2 : RuleDefinition Node)
    (hsome : r1.visitNode.isSome = r2.visitNode.isSome)
    (hvis : ∀ n : Node, (match r1.visitNode with
        | some v => (v n context).1
        | none => []) =
      (match r2.visitNode with
        | some v => (v n context).1
        | none => [])) :
    analyzeJavaScript parse config (L1 ++ [(rid, r1)] ++ L2) context =
      analyzeJavaScript parse config (L1 ++ [(rid, r2)] ++ L2) context := by
  unfold analyzeJavaScript
  cases parse context.sourceCode with
  | none => rfl
  | some ast =>
    have hfun : visitNodeOutput context
        (activeNodeRules config (L1 ++ [(rid, r1)] ++ L2)) =
        visitNodeOutput context
          (activeNodeRules config (L1 ++ [(rid, r2)] ++ L2)) := by
      funext n
      simp only [activeNodeRules_append, visitNodeOutput_append,
        visitNodeOutput_active_singleton, hsome, hvis]
    rw [hfun]

/-- `analyzePatterns` ignores a middle rule whose effective pattern
contribution is empty. -/
theorem analyzePatterns_middle_nil {Node : Type} (config : RuleConfig)
    (context : RuleContextInfo) (L1 L2 : List (String × RuleDefinition Node))
    (rid : String) (r : RuleDefinition Node)
    (hr : (match r.visitPattern with
      | some v => (v context).1
      | none => []) = []) :
    analyzePatterns config (L1 ++ [(rid, r)] ++ L2) context =
      analyzePatterns config (L1 ++ L2) context := by
  simp [analyzePatterns, hr]

/-- `analyzePatterns` depends on a middle rule only through `visitPattern`. -/
theorem analyzePatterns_middle_congr {Node : Type} (config : RuleConfig)
    (context : RuleContextInfo) (L1 L2 : List (String × RuleDefinition Node))
    (rid : String) (r1 r2 : RuleDefinition Node)
    (hpat : r1.visitPattern = r2.visitPattern) :
    analyzePatterns config (L1 ++ [(rid, r1)] ++ L2) context =
      analyzePatterns config (L1 ++ [(rid, r2)] ++ L2) context := by
  simp [analyzePatterns, hpat]

/-- C8: a rule whose `visitNode` throws is invisible to the others: (a) the
result of `analyzeFile` never depends on the throw flags of a rule's visitor,
only on what it reported before throwing, so an exception neither stops the
traversal nor suppresses or alters any other rule's suggestions (and, the
model being total, nothing propagates to the caller); (b) inserting a rule
that always throws on `visitNode` and reports nothing leaves the result of
`analyzeFile` exactly unchanged. -/
theorem C8_rule_isolation {Node : Type} (parse : String → Option (Tree Node))
    (config : RuleConfig) (R1 R2 : List (String × RuleDefinition Node))
    (rid : String) (base : RuleDefinition Node)
    (body : Node → RuleContextInfo → List ModernizationSuggestion)
    (f g : Node → RuleContextInfo → Bool) (filename content : String) :
    analyzeFile parse config
        (R1 ++ [(rid, withVisitNode base body f)] ++ R2) filename content =
      analyzeFile parse config
        (R1 ++ [(rid, withVisitNode base body g)] ++ R2) filename content
    ∧ analyzeFile parse config
        (R1 ++ [(rid, alwaysThrowingRule base)] ++ R2) filename content =
      analyzeFile parse config (R1 ++ R2) filename content := by
  constructor
  · simp only [analyzeFile]
    rw [analyzeJavaScript_middle_congr parse config _ R1 R2 rid
        (withVisitNode base body f) (withVisitNode base body g) rfl
        (fun n => rfl),
      analyzePatterns_middle_congr config _ R1 R2 rid
        (withVisitNode base body f) (withVisitNode base body g) rfl]
  · simp only [analyzeFile]
    rw [analyzeJavaScript_middle_nil parse config _ R1 R2 rid
        (alwaysThrowingRule base) (fun n => rfl),
      analyzePatterns_middle_nil config _ R1 R2 rid
        (alwaysThrowingRule base) rfl]

/-- C9: when parsing throws (`parse` returns `none`), `analyzeFile` still
returns — the traversal contributes nothing — and the result is exactly the
output of the text-scanner (`visitPattern`) rules, each enabled one running
once on the raw text, filtered by the enabled-rule check. -/
theorem C9_unparseable_runs_scanners {Node : Type}
    (parse : String → Option (Tree Node)) (config : RuleConfig)
    (rules : List (String × RuleDefinition Node)) (filename content : String)
    (hparse : parse content = none) :
    analyzeFile parse config rules filename content =
      (analyzePatterns config rules
        { filename := filename, sourceCode := content }).filter
        (fun s => isRuleEnabled config s.ruleId) := by
  have hjs : analyzeJavaScript parse config rules
      { filename := filename, sourceCode := content } = [] := by
    unfold analyzeJavaScript
    rw [show ({ filename := filename, sourceCode := content } :
      RuleContextInfo).sourceCode = content from rfl, hparse]
  simp only [analyzeFile]
  split
  · rw [hjs, List.nil_append]
  · rw [List.nil_append]

/-- C9 witness: with a parser that always throws, a file is degraded to
text-scanner-only analysis and the scanner's suggestion is still returned. -/
theorem C9_witness :
    (fun _ : String => (none : Option (Tree Unit))) "var x" = none
    ∧ analyzeFile (fun _ : String => (none : Option (Tree Unit)))
        ([] : RuleConfig) [("xhr-to-fetch", patternOnlyRule)] "f.js" "var x" =
      (analyzePatterns ([] : RuleConfig) [("xhr-to-fetch", patternOnlyRule)]
        { filename := "f.js", sourceCode := "var x" }).filter
        (fun s => isRuleEnabled ([] : RuleConfig) s.ruleId)
    ∧ analyzeFile (fun _ : String => (none : Option (Tree Unit)))
        ([] : RuleConfig) [("xhr-to-fetch", patternOnlyRule)] "f.js" "var x" =
      [patternSug] :=
  ⟨rfl,
    C9_unparseable_runs_scanners (fun _ : String => (none : Option (Tree Unit)))
      ([] : RuleConfig) [("xhr-to-fetch", patternOnlyRule)] "f.js" "var x" rfl,
    by decide⟩

end BaselineUpgrade
